import Mathlib

/-!
Verification of the invoice field-extraction engine of Files-Extract
(src/extract_amazon.py), shallowly embedded in Lean 4.

Python strings are modelled as Lean String / List Char.  The regular
expression rules of the source are embedded in two ways: the general field
patterns through a small backtracking engine (RE / mrun) in which every
source pattern is transliterated as data, and the fixed-shape patterns
(the four date regexes, the single-character-class substitutions, the
loop-based product-name rule, the address rules) as direct scans compiled
from the pattern.  Python dictionaries are association lists, and each
per-field extraction block of the source is one step of a step list folded
over the initial record.
-/

namespace FilesExtract

/-- ASCII whitespace as matched by Python's str.strip and the regex
class backslash-s on the inputs considered here. -/
def pySpace (c : Char) : Bool :=
  c = ' ' || c = '\t' || c = '\n' || c = '\r' || c = '\x0b' || c = '\x0c'

/-- Python str.strip(): drop leading and trailing whitespace. -/
def pyStripL (l : List Char) : List Char :=
  ((l.dropWhile pySpace).reverse.dropWhile pySpace).reverse

/-- Embedding of re.sub of one-or-more-whitespace with a single space:
every maximal whitespace run becomes one space character. -/
def collapseWs : List Char → List Char
  | [] => []
  | [c] => if pySpace c then [' '] else [c]
  | c :: d :: rest =>
    if pySpace c then
      if pySpace d then collapseWs (d :: rest)
      else ' ' :: collapseWs (d :: rest)
    else c :: collapseWs (d :: rest)

/-- Does pat occur at the head of the second list? -/
def leadsWith : List Char → List Char → Bool
  | [], _ => true
  | _ :: _, [] => false
  | p :: ps, c :: cs => p = c && leadsWith ps cs

/-- Python str.replace: replace every non-overlapping occurrence of pat
by rep, scanning left to right. -/
def replaceL (pat rep : List Char) : List Char → List Char
  | [] => []
  | c :: rest =>
    if h : pat ≠ [] ∧ leadsWith pat (c :: rest) then
      rep ++ replaceL pat rep ((c :: rest).drop pat.length)
    else
      c :: replaceL pat rep rest
termination_by l => l.length
decreasing_by
  · have hp : 1 ≤ pat.length := by
      cases hpat : pat with
      | nil => exact absurd hpat h.1
      | cons a as => simp
    simp only [List.length_drop, List.length_cons]
    omega
  · simp

/-- Embedding of InvoiceProcessor.clean_text. -/
def clean_text (s : String) : String :=
  if s = "" then ""
  else String.mk (pyStripL (replaceL ['\r'] ['\n'] (replaceL ['\r', '\n'] ['\n'] (collapseWs s.data))))

/-- Embedding of InvoiceProcessor.clean_currency. -/
def clean_currency (s : String) : String :=
  if s = "" then "0.00"
  else
    let c1 := s.data.filter (fun c => c.isDigit || c = '.' || c = ',')
    let c2 := c1.filter (fun c => c ≠ ',')
    if c2 = [] then "0.00" else String.mk c2

/-- Take exactly n characters, all of which must be digits. -/
def takeDigitsN : Nat → List Char → Option (List Char × List Char)
  | 0, l => some ([], l)
  | _ + 1, [] => none
  | n + 1, c :: rest =>
    if c.isDigit then
      match takeDigitsN n rest with
      | some (g, r) => some (c :: g, r)
      | none => none
    else none

/-- Anchored matcher for the fixed-shape date regexes of
standardize_date (a digits, sep, b digits, sep, c digits). -/
def matchDP (a : Nat) (sep : Char) (b c : Nat) (l : List Char) :
    Option (List Char × List Char × List Char) :=
  match takeDigitsN a l with
  | none => none
  | some (g1, r1) =>
    match r1 with
    | [] => none
    | s1 :: r2 =>
      if s1 = sep then
        match takeDigitsN b r2 with
        | none => none
        | some (g2, r3) =>
          match r3 with
          | [] => none
          | s2 :: r4 =>
            if s2 = sep then
              match takeDigitsN c r4 with
              | none => none
              | some (g3, _) => some (g1, g2, g3)
            else none
      else none

/-- re.search of a fixed-shape date regex: leftmost match wins. -/
def searchDP (a : Nat) (sep : Char) (b c : Nat) : List Char → Option (List Char × List Char × List Char)
  | [] => matchDP a sep b c []
  | x :: rest =>
    match matchDP a sep b c (x :: rest) with
    | some r => some r
    | none => searchDP a sep b c rest

/-- The output step of standardize_date, including the source's
group-1-has-length-4 reordering check. -/
def fmtPy (g1 g2 g3 : List Char) : String :=
  if g1.length = 4 then String.mk (g3 ++ '/' :: g2 ++ '/' :: g1)
  else String.mk (g1 ++ '/' :: g2 ++ '/' :: g3)

/-- Embedding of InvoiceProcessor.standardize_date: the four patterns are
tried in source order (dot, slash, dash, ISO dash). -/
def standardize_date (s : String) : String :=
  if s = "" ∨ s = "N/A" then "N/A"
  else
    match searchDP 2 '.' 2 4 s.data with
    | some (g1, g2, g3) => fmtPy g1 g2 g3
    | none =>
      match searchDP 2 '/' 2 4 s.data with
      | some (g1, g2, g3) => fmtPy g1 g2 g3
      | none =>
        match searchDP 2 '-' 2 4 s.data with
        | some (g1, g2, g3) => fmtPy g1 g2 g3
        | none =>
          match searchDP 4 '-' 2 2 s.data with
          | some (g1, g2, g3) => fmtPy g1 g2 g3
          | none => s

/-- Lowercasing as used by detect_invoice_type (Python str.lower on the
ASCII letters that occur in the vendor markers). -/
def toLowerL (l : List Char) : List Char := l.map Char.toLower

/-- Substring containment (Python's in operator on str). -/
def containsSub (pat : List Char) : List Char → Bool
  | [] => leadsWith pat []
  | c :: rest => leadsWith pat (c :: rest) || containsSub pat rest

/-- Embedding of InvoiceProcessor.detect_invoice_type. -/
def detect_invoice_type (text filename : String) : String :=
  let textLower := toLowerL text.data
  let fnLower := toLowerL filename.data
  if containsSub "amazon".data fnLower then "amazon"
  else if containsSub "flipkart".data fnLower then "flipkart"
  else if containsSub "amazon".data textLower || containsSub "ASSPL-Amazon".data text.data then "amazon"
  else if containsSub "flipkart".data textLower then "flipkart"
  else "unknown"

/-- Pattern AST for the transliterated source regexes. -/
inductive RE where
  | eps : RE
  | cls : (Char → Bool) → RE
  | seq : RE → RE → RE
  | alt : RE → RE → RE
  | star : Bool → RE → RE
  | grp : RE → RE

/-- Fuel-bounded backtracking matcher.  A result list holds the possible
(remaining suffix, group-1 capture) pairs in the preference order of the
Python engine: left alternative first, greedy star longest first, lazy
star shortest first.  Fuel only bounds recursion depth; with the fuel
used by search1 it is never exhausted on the transliterated patterns,
whose starred bodies all consume at least one character. -/
def mrun : Nat → RE → List Char → List (List Char × Option (List Char))
  | 0, _, _ => []
  | _ + 1, RE.eps, l => [(l, none)]
  | _ + 1, RE.cls _, [] => []
  | _ + 1, RE.cls p, c :: rest => if p c then [(rest, none)] else []
  | fuel + 1, RE.seq a b, l =>
    (mrun fuel a l).flatMap fun r1 =>
      (mrun fuel b r1.1).map fun r2 => (r2.1, r1.2 <|> r2.2)
  | fuel + 1, RE.alt a b, l => mrun fuel a l ++ mrun fuel b l
  | fuel + 1, RE.grp r, l =>
    (mrun fuel r l).map fun r1 => (r1.1, some (l.take (l.length - r1.1.length)))
  | fuel + 1, RE.star g r, l =>
    if g then mrun fuel (RE.alt (RE.seq r (RE.star g r)) RE.eps) l
    else mrun fuel (RE.alt RE.eps (RE.seq r (RE.star g r))) l

/-- Fuel for the matcher: a generous bound on backtracking depth. -/
def fuelFor (l : List Char) : Nat := 2000 + 100 * l.length

/-- re.search with one capturing group: scan start positions left to
right, take the engine's preferred match at the first matching position,
and return its group-1 capture. -/
def search1 (re : RE) : List Char → Option (List Char)
  | [] =>
    match mrun (fuelFor []) re [] with
    | r :: _ => r.2
    | [] => none
  | c :: t =>
    match mrun (fuelFor (c :: t)) re (c :: t) with
    | r :: _ => r.2
    | [] => search1 re t

/-- Literal character. -/
def chE (c : Char) : RE := RE.cls (fun x => x == c)

/-- Literal character under re.IGNORECASE. -/
def chI (c : Char) : RE := RE.cls (fun x => x.toLower == c.toLower)

/-- Literal word. -/
def strE (s : String) : RE := (s.data.map chE).foldr RE.seq RE.eps

/-- Literal word under re.IGNORECASE. -/
def strI (s : String) : RE := (s.data.map chI).foldr RE.seq RE.eps

def reSeq (rs : List RE) : RE := rs.foldr RE.seq RE.eps

def reStar (r : RE) : RE := RE.star true r

def rePlus (r : RE) : RE := RE.seq r (RE.star true r)

def reOpt (r : RE) : RE := RE.alt r RE.eps

def reRep (n : Nat) (r : RE) : RE := reSeq (List.replicate n r)

def dgt : RE := RE.cls Char.isDigit

def wsC : RE := RE.cls pySpace

/-- The recurring separator class of colon-or-whitespace, starred. -/
def colonWs : RE := RE.star true (RE.cls (fun c => c == ':' || pySpace c))

def clsDigitDash : RE := RE.cls (fun c => c.isDigit || c == '-')

def clsDateChars : RE := RE.cls (fun c => c.isDigit || c == '.' || c == '/' || c == '-')

def clsDigitComma : RE := RE.cls (fun c => c.isDigit || c == ',')

def asciiLetter (c : Char) : Bool := ('A' ≤ c && c ≤ 'Z') || ('a' ≤ c && c ≤ 'z')

/-- The class of A-Z or 0-9 under re.IGNORECASE. -/
def clsAlnumCI : RE := RE.cls (fun c => asciiLetter c || c.isDigit)

/-- The class of A-Z, 0-9 or dash under re.IGNORECASE. -/
def clsAlnumDashCI : RE := RE.cls (fun c => asciiLetter c || c.isDigit || c == '-')

/-- The recurring captured amount shape: digits-or-commas, optional
period, digits. -/
def moneyGrp : RE := RE.grp (reSeq [rePlus clsDigitComma, reOpt (chE '.'), reStar dgt])

/-- The same amount shape without capture. -/
def moneyNG : RE := reSeq [rePlus clsDigitComma, reOpt (chE '.'), reStar dgt]

/-! Amazon field patterns, transliterated from extract_amazon_invoice. -/

def patAmzOrder1 : RE := reSeq [strI "Order", reStar wsC, strI "Number", colonWs, RE.grp (rePlus clsDigitDash)]

def patAmzOrder2 : RE := reSeq [strI "Order", reStar wsC, strI "ID", colonWs, RE.grp (rePlus clsDigitDash)]

def patAmzOrder3 : RE := reSeq [strI "Amazon", reStar wsC, strI "Order", colonWs, RE.grp (rePlus clsDigitDash)]

def patAmzInvoiceNo : RE := reSeq [strI "Invoice", reStar wsC, strI "Number", colonWs, RE.grp (rePlus clsAlnumDashCI)]

def patAmzOrderDate : RE := reSeq [strI "Order", reStar wsC, strI "Date", colonWs, RE.grp (rePlus clsDateChars)]

def patAmzInvoiceDate : RE := reSeq [strI "Invoice", reStar wsC, strI "Date", colonWs, RE.grp (rePlus clsDateChars)]

def patAmzHSN : RE := reSeq [strI "HSN", colonWs, RE.grp (rePlus dgt)]

def patAmzUnit : RE := reSeq [chE '₹', moneyGrp, rePlus wsC, chE '1', rePlus wsC, chE '₹']

def patAmzQty : RE := reSeq [chE '₹', moneyNG, rePlus wsC, RE.grp (rePlus dgt), rePlus wsC, chE '₹']

def patAmzNet : RE := reSeq [chE '₹', moneyNG, rePlus wsC, rePlus dgt, rePlus wsC, chE '₹', moneyGrp]

def patAmzTaxRate : RE := reSeq [RE.grp (rePlus dgt), chE '%', rePlus wsC, strE "IGST"]

def patAmzTaxAmt : RE := reSeq [strE "IGST", rePlus wsC, chE '₹', moneyGrp]

def patAmzTotalAmt : RE := reSeq [strE "IGST", rePlus wsC, chE '₹', moneyNG, rePlus wsC, chE '₹', moneyGrp]

def patAmzShipCharges : RE := reSeq [strI "Shipping", rePlus wsC, strI "Charges", rePlus wsC, chE '₹', moneyGrp]

def patAmzGrand1 : RE := reSeq [strI "TOTAL", colonWs, chE '₹', moneyGrp]

def patAmzGrand2 : RE := reSeq [strI "Invoice", reStar wsC, strI "Value", colonWs, reOpt (chE '₹'), moneyGrp]

def patAmzGrand3 : RE := reSeq [strI "Grand", reStar wsC, strI "Total", colonWs, chE '₹', moneyGrp]

def patAmzPayment : RE := reSeq [strI "Mode", reStar wsC, strI "of", reStar wsC, strI "Payment", colonWs, RE.grp (rePlus (RE.cls (fun c => c != '\n')))]

def patAmzSeller : RE := reSeq [strI "Sold", reStar wsC, strI "By", colonWs, RE.grp (rePlus (RE.cls (fun c => c != '\n' && c != '*')))]

def patAmzGST : RE := reSeq [strI "GST", reStar wsC, strI "Registration", reStar wsC, strI "No", colonWs, RE.grp (rePlus clsAlnumCI)]

/-! Flipkart field patterns, transliterated from extract_flipkart_invoice. -/

def colonWsHash : RE := RE.star true (RE.cls (fun c => c == ':' || pySpace c || c == '#'))

def patFkOrder : RE := reSeq [strI "Order", reStar wsC, RE.alt (strI "ID") (strI "Number"), colonWs, RE.grp (rePlus clsAlnumCI)]

def patFkInvoice1 : RE := reSeq [strI "Invoice", reStar wsC, RE.alt (strI "Number") (strI "No"), colonWsHash, RE.grp (rePlus clsAlnumCI)]

def patFkInvoice2 : RE := reSeq [chE '#', reStar wsC, RE.grp (reSeq [reRep 10 clsAlnumCI, reStar clsAlnumCI])]

def anyC : RE := RE.cls (fun _ => true)

def notNl : RE := RE.cls (fun c => c != '\n')

def patFkProd1 : RE := reSeq [strI "Product", reStar wsC, strI "Description", rePlus wsC, strI "Qty", RE.star false anyC, chE '\n', RE.grp (rePlus notNl)]

def patFkProd2 : RE := reSeq [strI "Description", rePlus wsC, strI "Qty", RE.star false anyC, chE '\n', RE.grp (rePlus notNl)]

def patFkProd3 : RE := reSeq [RE.grp (reSeq [RE.cls asciiLetter, RE.star false anyC]), rePlus wsC, strI "HSN", colonWs, rePlus dgt]

def patFkProd4 : RE := reSeq [strI "Ordered", reStar wsC, strI "Through", RE.star false anyC, chE '\n', RE.grp (rePlus notNl)]

def patFkHSN : RE := reSeq [strI "HSN", colonWs, RE.grp (rePlus dgt)]

def patFkQty : RE := reSeq [strI "Qty", rePlus wsC, RE.grp (rePlus dgt)]

def notRupee : RE := RE.cls (fun c => c != '₹')

def patFkGross : RE := reSeq [strI "Gross", reStar wsC, strI "Amount", reStar notRupee, reOpt (chE '₹'), reStar wsC, moneyGrp]

def patFkTaxable : RE := reSeq [strI "Taxable", reStar wsC, chI 'v', strI "alue", reStar notRupee, reOpt (chE '₹'), reStar wsC, moneyGrp]

def patFkTaxRate : RE := reSeq [RE.grp (reSeq [rePlus dgt, reOpt (chE '.'), reStar dgt]), chE '%', reStar wsC, strE "IGST"]

def patFkTaxAmt : RE := reSeq [strI "IGST", reStar notRupee, reOpt (chE '₹'), reStar wsC, moneyGrp]

def patFkTotal1 : RE := reSeq [strI "Total", reStar notRupee, reOpt (chE '₹'), reStar wsC, moneyGrp]

def patFkTotal2 : RE := reSeq [strI "Grand", reStar wsC, strI "Total", reStar notRupee, reOpt (chE '₹'), reStar wsC, moneyGrp]

def patFkShip1 : RE := reSeq [strI "Shipping", reStar wsC, reOpt (reSeq [strI "and", reStar wsC]), reOpt (reSeq [strI "Handling", reStar wsC]), strI "Charges", reStar notRupee, reOpt (chE '₹'), reStar wsC, moneyGrp]

def patFkShip2 : RE := reSeq [strI "Delivery", reStar wsC, strI "Charges", reStar notRupee, reOpt (chE '₹'), reStar wsC, moneyGrp]

def patFkSeller : RE := reSeq [strI "Sold", reStar wsC, strI "By", colonWs, RE.grp (rePlus (RE.cls (fun c => c != ',' && c != '\n')))]

def patFkGST1 : RE := reSeq [strI "GSTIN", RE.star true (RE.cls (fun c => c == ':' || pySpace c || c == '-')), RE.grp (reRep 15 clsAlnumCI)]

def patFkGST2 : RE := reSeq [strI "GST", colonWs, RE.grp (reRep 15 clsAlnumCI)]

/-! The Amazon multi-line product-name rule (source lines 126-153),
compiled from the Python loop. -/

/-- Python text.split of a newline. -/
def splitNl : List Char → List (List Char)
  | [] => [[]]
  | c :: rest =>
    if c = '\n' then [] :: splitNl rest
    else
      match splitNl rest with
      | [] => [[c]]
      | h :: t => (c :: h) :: t

/-- The anchored regex of optional whitespace, the digit 1, then
whitespace, applied by re.search without MULTILINE, so only at the very
start of the line. -/
def lineStartsOne (l : List Char) : Bool :=
  match l.dropWhile pySpace with
  | '1' :: c :: _ => pySpace c
  | _ => false

/-- re.sub removing the leading item-index match when present. -/
def stripOne (l : List Char) : List Char :=
  match l.dropWhile pySpace with
  | '1' :: c :: rest => if pySpace c then (c :: rest).dropWhile pySpace else l
  | _ => l

/-- Anchored match of one-or-more digits followed by a percent sign. -/
def pctStart (l : List Char) : Bool :=
  match l with
  | c :: _ =>
    c.isDigit &&
      (match l.dropWhile Char.isDigit with
       | '%' :: _ => true
       | _ => false)
  | [] => false

/-- The table-section test of the continuation loop (case-sensitive
anchored alternation of the source). -/
def sectionStart (l : List Char) : Bool :=
  leadsWith "HSN".data l || leadsWith "₹".data l ||
    pctStart l || leadsWith "IGST".data l || leadsWith "Shipping".data l

/-- The aggregate-keyword test of the continuation loop, on the
lowercased line. -/
def hasAggregate (l : List Char) : Bool :=
  let low := toLowerL l
  containsSub "total".data low || containsSub "amount".data low ||
    containsSub "tax".data low || containsSub "gst".data low

/-- The continuation-line loop: scan at most four lines, stop at an
empty or section-starting stripped line, skip lines holding an aggregate
keyword, append every other line. -/
def collectParts : Nat → List (List Char) → List (List Char)
  | 0, _ => []
  | _ + 1, [] => []
  | n + 1, ln :: rest =>
    let nl := pyStripL ln
    if nl ≠ [] && !sectionStart nl then
      if !hasAggregate nl then nl :: collectParts n rest
      else collectParts n rest
    else []

/-- The enclosing for-loop: find the first line that starts with the
item index 1, keeping the lines after it. -/
def findItemLine : List (List Char) → Option (List Char × List (List Char))
  | [] => none
  | ln :: rest => if lineStartsOne ln then some (ln, rest) else findItemLine rest

def moneyClass (c : Char) : Bool := c.isDigit || c = ',' || c = '.'

/-- Anchored test for the trailing price-qty-price artifact: a currency
glyph, an amount, a space, digits, a space, a currency glyph and an
amount; the rest-of-line tail of the pattern always matches because the
joined product text holds no newline. -/
def artifactAt (l : List Char) : Bool :=
  match l with
  | '₹' :: r1 =>
    let a := r1.takeWhile moneyClass
    if a.isEmpty then false
    else
      match r1.drop a.length with
      | ' ' :: r2 =>
        let b := r2.takeWhile Char.isDigit
        if b.isEmpty then false
        else
          match r2.drop b.length with
          | ' ' :: '₹' :: r3 => !(r3.takeWhile moneyClass).isEmpty
          | _ => false
      | _ => false
  | _ => false

/-- re.sub deleting from the leftmost artifact occurrence to the end. -/
def stripArtifact : List Char → List Char
  | [] => []
  | c :: rest => if artifactAt (c :: rest) then [] else c :: stripArtifact rest

/-- Python str.join with a single space. -/
def joinSpace : List (List Char) → List Char
  | [] => []
  | [p] => p
  | p :: q :: rest => p ++ ' ' :: joinSpace (q :: rest)

/-- The whole Amazon product-name rule. -/
def amazonProductRule (t : String) : Option String :=
  match findItemLine (splitNl t.data) with
  | none => none
  | some (ln, rest) =>
    let parts := stripOne ln :: collectParts 4 rest
    let full := joinSpace parts
    some (String.mk ((pyStripL (stripArtifact full)).take 200))

/-! The address rules, compiled from the lazy-capture lookahead regexes
of the source (lines 226-237 and 385-395). -/

/-- Case-insensitive literal prefix test. -/
def leadsWithCI : List Char → List Char → Bool
  | [], _ => true
  | _ :: _, [] => false
  | p :: ps, c :: cs => p.toLower == c.toLower && leadsWithCI ps cs

/-- Matcher for a two-word marker joined by optional whitespace
(case-insensitive), returning the remainder after the marker. -/
def twoWordCI (w1 w2 : List Char) (l : List Char) : Option (List Char) :=
  if leadsWithCI w1 l then
    let r := (l.drop w1.length).dropWhile pySpace
    if leadsWithCI w2 r then some (r.drop w2.length) else none
  else none

/-- The end-of-text alternative of the lookahead: a dollar anchor
without MULTILINE matches at the end or before a final newline. -/
def atEnd (l : List Char) : Bool := l = [] || l = ['\n']

/-- Stop lookahead of the Amazon billing pattern. -/
def stopAmzBilling (l : List Char) : Bool :=
  (twoWordCI "Shipping".data "Address".data l).isSome ||
    leadsWithCI "State/UT".data l || atEnd l

/-- Stop lookahead of the Amazon shipping pattern. -/
def stopAmzShipping (l : List Char) : Bool :=
  (twoWordCI "Place".data "of".data l).isSome ||
    leadsWithCI "State/UT".data l || atEnd l

/-- Stop lookahead of the Flipkart billing pattern. -/
def stopFkBilling (l : List Char) : Bool :=
  (twoWordCI "Ship".data "To".data l).isSome ||
    (twoWordCI "Order".data "ID".data l).isSome || atEnd l

/-- Stop lookahead of the Flipkart shipping pattern. -/
def stopFkShipping (l : List Char) : Bool :=
  (twoWordCI "Bill".data "To".data l).isSome ||
    (twoWordCI "Order".data "ID".data l).isSome || atEnd l

/-- The lazy capture group of the address patterns: one or more
non-colon characters, as few as possible, with the lookahead tested
after each one. -/
def lazyCapture (stop : List Char → Bool) : List Char → Option (List Char)
  | [] => none
  | c :: rest =>
    if c = ':' then none
    else if stop rest then some [c]
    else
      match lazyCapture stop rest with
      | some g => some (c :: g)
      | none => none

/-- Backtracking over the greedy separator run before the capture: the
capture may start after any prefix of the run, longest preferred. -/
def tryStarts (stop : List Char → Bool) (r0 : List Char) : Nat → Option (List Char)
  | 0 => lazyCapture stop r0
  | i + 1 =>
    match lazyCapture stop (r0.drop (i + 1)) with
    | some g => some g
    | none => tryStarts stop r0 i

/-- One anchored attempt of a whole address pattern. -/
def tryAddrAt (marker : List Char → Option (List Char)) (sepCl : Char → Bool)
    (stop : List Char → Bool) (l : List Char) : Option (List Char) :=
  match marker l with
  | none => none
  | some r0 => tryStarts stop r0 (r0.takeWhile sepCl).length

/-- re.search of a whole address pattern: leftmost matching start
position wins. -/
def addrSearch (marker : List Char → Option (List Char)) (sepCl : Char → Bool)
    (stop : List Char → Bool) : List Char → Option (List Char)
  | [] => tryAddrAt marker sepCl stop []
  | c :: t =>
    match tryAddrAt marker sepCl stop (c :: t) with
    | some g => some g
    | none => addrSearch marker sepCl stop t

/-- The separator class of the Amazon address patterns. -/
def colonSep (c : Char) : Bool := c == ':' || pySpace c

/-- The post-processing shared by the four address rules: strip,
collapse whitespace, truncate to 150 characters. -/
def addrPost (g : List Char) : String :=
  String.mk ((collapseWs (pyStripL g)).take 150)

def amazonBillingRule (t : String) : Option String :=
  (addrSearch (twoWordCI "Billing".data "Address".data) colonSep stopAmzBilling t.data).map addrPost

def amazonShippingRule (t : String) : Option String :=
  (addrSearch (twoWordCI "Shipping".data "Address".data) colonSep stopAmzShipping t.data).map addrPost

def flipkartBillingRule (t : String) : Option String :=
  (addrSearch (twoWordCI "Bill".data "To".data) pySpace stopFkBilling t.data).map addrPost

def flipkartShippingRule (t : String) : Option String :=
  (addrSearch (twoWordCI "Ship".data "To".data) pySpace stopFkShipping t.data).map addrPost

/-! The Flipkart product-name rule's post-processing substitutions. -/

/-- Anchored test for the trailing numbers-then-amount shape removed
from Flipkart product names. -/
def trailNumAt (l : List Char) : Bool :=
  let a := l.takeWhile Char.isDigit
  if a.isEmpty then false
  else
    let r1 := l.drop a.length
    let w := r1.takeWhile pySpace
    if w.isEmpty then false
    else
      match r1.drop w.length with
      | c :: _ => c.isDigit || c = ','
      | [] => false

/-- re.sub deleting from the leftmost trailing-numbers occurrence to the
end of the (newline-free) name. -/
def cutTrailingNums : List Char → List Char
  | [] => []
  | c :: rest => if trailNumAt (c :: rest) then [] else c :: cutTrailingNums rest

/-- re.sub removing an anchored run of digits and whitespace. -/
def cutLeadingNum (l : List Char) : List Char :=
  let a := l.takeWhile Char.isDigit
  if a.isEmpty then l
  else
    let r1 := l.drop a.length
    let w := r1.takeWhile pySpace
    if w.isEmpty then l else r1.drop w.length

/-- Post-processing of one matched Flipkart product pattern; the rule
falls through to the next pattern when the cleaned name is short. -/
def flipkartProductPost (g : List Char) : Option String :=
  let name := cutLeadingNum (cutTrailingNums (pyStripL g))
  if name.length > 10 then some (String.mk (name.take 200)) else none

/-- The whole Flipkart product-name rule: the four patterns in source
order, first pattern whose cleaned name is long enough wins. -/
def flipkartProductRule (t : String) : Option String :=
  match (search1 patFkProd1 t.data).bind flipkartProductPost with
  | some v => some v
  | none =>
    match (search1 patFkProd2 t.data).bind flipkartProductPost with
    | some v => some v
    | none =>
      match (search1 patFkProd3 t.data).bind flipkartProductPost with
      | some v => some v
      | none => (search1 patFkProd4 t.data).bind flipkartProductPost

/-! The record model: a Python dict as an association list, one
extraction block of the source as one step. -/

abbrev Dict := List (String × String)

def lookupK : Dict → String → Option String
  | [], _ => none
  | (k, v) :: rest, key => if k = key then some v else lookupK rest key

/-- Python dict assignment: replace the value when the key is present,
append otherwise. -/
def setK : Dict → String → String → Dict
  | [], key, v => [(key, v)]
  | (k, w) :: rest, key, v => if k = key then (key, v) :: rest else (k, w) :: setK rest key v

def keysK (d : Dict) : List String := d.map Prod.fst

/-- One per-field extraction block: the key it assigns and the optional
value its patterns produce from the text. -/
structure FStep where
  key : String
  rule : String → Option String

/-- Run one block: assign on match, leave the record alone otherwise. -/
def runStep (t : String) (d : Dict) (s : FStep) : Dict :=
  match s.rule t with
  | some v => setK d s.key v
  | none => d

def runSteps (t : String) (steps : List FStep) (d : Dict) : Dict :=
  steps.foldl (runStep t) d

/-- A per-field step as seen by the try/except boundary: it may raise a
Python exception, modelled as Except. -/
abbrev EStep := Dict → Except String Dict

/-- Lift a (total) field step of the source to the boundary view. -/
def liftF (t : String) (s : FStep) : EStep := fun d => Except.ok (runStep t d s)

/-- The whole-document try/except of the source: run the blocks in
order; when one raises, the exception is caught at this boundary and the
record as populated so far is returned. -/
def runStepsB : List EStep → Dict → Dict
  | [], d => d
  | s :: rest, d =>
    match s d with
    | Except.ok d2 => runStepsB rest d2
    | Except.error _ => d

/-- First pattern of a candidate list that matches (the break-on-match
loops of the source). -/
def firstSome1 : List RE → List Char → Option (List Char)
  | [], _ => none
  | p :: ps, l =>
    match search1 p l with
    | some g => some g
    | none => firstSome1 ps l

/-- Strip of the leftmost star-to-end match of the seller clean-up
substitution (the seller group is newline-free). -/
def cutStar (l : List Char) : List Char := l.takeWhile (fun c => c != '*')

def strOf (g : List Char) : String := String.mk g

/-! The Amazon step list, in source order. -/

def stepAOrder : FStep :=
  ⟨"Order Number", fun t => (firstSome1 [patAmzOrder1, patAmzOrder2, patAmzOrder3] t.data).map (fun g => strOf (pyStripL g))⟩

def stepAInvoiceNo : FStep :=
  ⟨"Invoice Number", fun t => (search1 patAmzInvoiceNo t.data).map (fun g => strOf (pyStripL g))⟩

def stepAOrderDate : FStep :=
  ⟨"Order Date", fun t => (search1 patAmzOrderDate t.data).map (fun g => standardize_date (strOf (pyStripL g)))⟩

def stepAInvoiceDate : FStep :=
  ⟨"Invoice Date", fun t => (search1 patAmzInvoiceDate t.data).map (fun g => standardize_date (strOf (pyStripL g)))⟩

def stepAProduct : FStep := ⟨"Product Name", amazonProductRule⟩

def stepAHSN : FStep :=
  ⟨"HSN Code", fun t => (search1 patAmzHSN t.data).map (fun g => strOf (pyStripL g))⟩

def stepAUnit : FStep :=
  ⟨"Unit Price", fun t => (search1 patAmzUnit t.data).map (fun g => clean_currency (strOf g))⟩

def stepAQty : FStep :=
  ⟨"Quantity", fun t => (search1 patAmzQty t.data).map strOf⟩

def stepANet : FStep :=
  ⟨"Net Amount", fun t => (search1 patAmzNet t.data).map (fun g => clean_currency (strOf g))⟩

def stepATaxRate : FStep :=
  ⟨"Tax Rate", fun t => (search1 patAmzTaxRate t.data).map (fun g => strOf g ++ "%")⟩

def stepATaxAmt : FStep :=
  ⟨"Tax Amount", fun t => (search1 patAmzTaxAmt t.data).map (fun g => clean_currency (strOf g))⟩

def stepATotalAmt : FStep :=
  ⟨"Total Amount", fun t => (search1 patAmzTotalAmt t.data).map (fun g => clean_currency (strOf g))⟩

def stepAShipCharges : FStep :=
  ⟨"Shipping Charges", fun t => (search1 patAmzShipCharges t.data).map (fun g => clean_currency (strOf g))⟩

def stepAGrand : FStep :=
  ⟨"Grand Total", fun t => (firstSome1 [patAmzGrand1, patAmzGrand2, patAmzGrand3] t.data).map (fun g => clean_currency (strOf g))⟩

def stepAPayment : FStep :=
  ⟨"Payment Mode", fun t => (search1 patAmzPayment t.data).map (fun g => strOf (pyStripL g))⟩

def stepASeller : FStep :=
  ⟨"Seller Name", fun t => (search1 patAmzSeller t.data).map (fun g => strOf ((pyStripL (cutStar (pyStripL g))).take 100))⟩

def stepAGST : FStep :=
  ⟨"Seller GST", fun t => (search1 patAmzGST t.data).map (fun g => strOf (pyStripL g))⟩

def stepABilling : FStep := ⟨"Billing Address", amazonBillingRule⟩

def stepAShipping : FStep := ⟨"Shipping Address", amazonShippingRule⟩

def amazonSteps : List FStep :=
  [stepAOrder, stepAInvoiceNo, stepAOrderDate, stepAInvoiceDate, stepAProduct,
   stepAHSN, stepAUnit, stepAQty, stepANet, stepATaxRate, stepATaxAmt,
   stepATotalAmt, stepAShipCharges, stepAGrand, stepAPayment, stepASeller,
   stepAGST, stepABilling, stepAShipping]

/-! The Flipkart step list, in source order. -/

def stepFOrder : FStep :=
  ⟨"Order Number", fun t => (search1 patFkOrder t.data).map (fun g => strOf (pyStripL g))⟩

def stepFInvoiceNo : FStep :=
  ⟨"Invoice Number", fun t => (firstSome1 [patFkInvoice1, patFkInvoice2] t.data).map (fun g => strOf (pyStripL g))⟩

def stepFOrderDate : FStep :=
  ⟨"Order Date", fun t => (search1 patAmzOrderDate t.data).map (fun g => standardize_date (strOf (pyStripL g)))⟩

def stepFInvoiceDate : FStep :=
  ⟨"Invoice Date", fun t => (search1 patAmzInvoiceDate t.data).map (fun g => standardize_date (strOf (pyStripL g)))⟩

def stepFProduct : FStep := ⟨"Product Name", flipkartProductRule⟩

def stepFHSN : FStep :=
  ⟨"HSN Code", fun t => (search1 patFkHSN t.data).map (fun g => strOf (pyStripL g))⟩

def stepFQty : FStep :=
  ⟨"Quantity", fun t => (search1 patFkQty t.data).map strOf⟩

def stepFGross : FStep :=
  ⟨"Unit Price", fun t => (search1 patFkGross t.data).map (fun g => clean_currency (strOf g))⟩

def stepFTaxable : FStep :=
  ⟨"Net Amount", fun t => (search1 patFkTaxable t.data).map (fun g => clean_currency (strOf g))⟩

def stepFTaxRate : FStep :=
  ⟨"Tax Rate", fun t => (search1 patFkTaxRate t.data).map (fun g => strOf g ++ "%")⟩

def stepFTaxAmt : FStep :=
  ⟨"Tax Amount", fun t => (search1 patFkTaxAmt t.data).map (fun g => clean_currency (strOf g))⟩

def stepFTotal : FStep :=
  ⟨"Grand Total", fun t => (firstSome1 [patFkTotal1, patFkTotal2] t.data).map (fun g => clean_currency (strOf g))⟩

/-- Flipkart shipping: the per-pattern guard also rejects a literal
"0.00" group, in which case the loop moves to the next pattern. -/
def stepFShip : FStep :=
  ⟨"Shipping Charges", fun t =>
    match (search1 patFkShip1 t.data).bind
        (fun g => if strOf g ≠ "0.00" then some (clean_currency (strOf g)) else none) with
    | some v => some v
    | none =>
      (search1 patFkShip2 t.data).bind
        (fun g => if strOf g ≠ "0.00" then some (clean_currency (strOf g)) else none)⟩

def stepFSeller : FStep :=
  ⟨"Seller Name", fun t => (search1 patFkSeller t.data).map (fun g => strOf ((pyStripL g).take 100))⟩

def stepFGST : FStep :=
  ⟨"Seller GST", fun t => (firstSome1 [patFkGST1, patFkGST2] t.data).map (fun g => strOf (pyStripL g))⟩

def stepFBilling : FStep := ⟨"Billing Address", flipkartBillingRule⟩

def stepFShipping : FStep := ⟨"Shipping Address", flipkartShippingRule⟩

def flipkartSteps : List FStep :=
  [stepFOrder, stepFInvoiceNo, stepFOrderDate, stepFInvoiceDate, stepFProduct,
   stepFHSN, stepFQty, stepFGross, stepFTaxable, stepFTaxRate, stepFTaxAmt,
   stepFTotal, stepFShip, stepFSeller, stepFGST, stepFBilling, stepFShipping]

/-! The initial records and the two extractors. -/

def amazonInit (filename : String) : Dict :=
  [("File Name", filename), ("Invoice Source", "Amazon"), ("Order Number", "N/A"),
   ("Invoice Number", "N/A"), ("Order Date", "N/A"), ("Invoice Date", "N/A"),
   ("Product Name", "N/A"), ("HSN Code", "N/A"), ("Quantity", "1"),
   ("Unit Price", "0.00"), ("Net Amount", "0.00"), ("Tax Rate", "N/A"),
   ("Tax Amount", "0.00"), ("Total Amount", "0.00"), ("Shipping Charges", "0.00"),
   ("Grand Total", "0.00"), ("Payment Mode", "N/A"), ("Seller Name", "N/A"),
   ("Seller GST", "N/A"), ("Billing Address", "N/A"), ("Shipping Address", "N/A")]

def flipkartInit (filename : String) : Dict :=
  [("File Name", filename), ("Invoice Source", "Flipkart"), ("Order Number", "N/A"),
   ("Invoice Number", "N/A"), ("Order Date", "N/A"), ("Invoice Date", "N/A"),
   ("Product Name", "N/A"), ("HSN Code", "N/A"), ("Quantity", "1"),
   ("Unit Price", "0.00"), ("Net Amount", "0.00"), ("Tax Rate", "N/A"),
   ("Tax Amount", "0.00"), ("Total Amount", "0.00"), ("Shipping Charges", "0.00"),
   ("Grand Total", "0.00"), ("Payment Mode", "N/A"), ("Seller Name", "N/A"),
   ("Seller GST", "N/A"), ("Billing Address", "N/A"), ("Shipping Address", "N/A")]

/-- Embedding of InvoiceProcessor.extract_amazon_invoice. -/
def extract_amazon_invoice (text filename : String) : Dict :=
  runStepsB (amazonSteps.map (liftF text)) (amazonInit filename)

/-- Embedding of InvoiceProcessor.extract_flipkart_invoice. -/
def extract_flipkart_invoice (text filename : String) : Dict :=
  runStepsB (flipkartSteps.map (liftF text)) (flipkartInit filename)

/-! Generic facts about the record model. -/

theorem lookupK_setK_self (d : Dict) (k v : String) : lookupK (setK d k v) k = some v := by
  induction d with
  | nil => simp [setK, lookupK]
  | cons a rest ih =>
    obtain ⟨ak, av⟩ := a
    by_cases h : ak = k
    · simp [setK, h, lookupK]
    · simp [setK, h, lookupK, ih]

theorem lookupK_setK_ne (d : Dict) (k k2 v : String) (h : k ≠ k2) :
    lookupK (setK d k v) k2 = lookupK d k2 := by
  induction d with
  | nil => simp [setK, lookupK, h]
  | cons a rest ih =>
    obtain ⟨ak, av⟩ := a
    by_cases hk : ak = k
    · subst hk
      simp [setK, lookupK, h]
    · simp [setK, hk, lookupK, ih]

theorem keysK_setK (d : Dict) (k v : String) (hk : k ∈ keysK d) :
    keysK (setK d k v) = keysK d := by
  induction d with
  | nil => simp [keysK] at hk
  | cons a rest ih =>
    obtain ⟨ak, av⟩ := a
    by_cases h : ak = k
    · simp [setK, h, keysK]
    · have hk2 : k ∈ keysK rest := by
        simp [keysK] at hk
        rcases hk with h1 | h2
        · exact absurd h1.symm h
        · simpa [keysK] using h2
      simp [setK, h, keysK]
      simpa [keysK] using ih hk2

theorem keysK_runStep (t : String) (d : Dict) (s : FStep) (h : s.key ∈ keysK d) :
    keysK (runStep t d s) = keysK d := by
  unfold runStep
  cases s.rule t with
  | none => rfl
  | some v => exact keysK_setK d s.key v h

theorem keysK_runSteps (t : String) (steps : List FStep) :
    ∀ d : Dict, (∀ s ∈ steps, s.key ∈ keysK d) → keysK (runSteps t steps d) = keysK d := by
  induction steps with
  | nil => intro d _; rfl
  | cons a rest ih =>
    intro d h
    have ha : a.key ∈ keysK d := h a (List.mem_cons_self a rest)
    have hstep : keysK (runStep t d a) = keysK d := keysK_runStep t d a ha
    have hrest : ∀ s ∈ rest, s.key ∈ keysK (runStep t d a) := by
      intro s hs
      rw [hstep]
      exact h s (List.mem_cons_of_mem a hs)
    calc keysK (runSteps t rest (runStep t d a)) = keysK (runStep t d a) := ih _ hrest
      _ = keysK d := hstep

theorem runStepsB_liftF (t : String) (steps : List FStep) :
    ∀ d : Dict, runStepsB (steps.map (liftF t)) d = runSteps t steps d := by
  induction steps with
  | nil => intro d; rfl
  | cons a rest ih => intro d; simpa [runStepsB, liftF, runSteps] using ih (runStep t d a)

theorem lookupK_isSome (d : Dict) (k : String) :
    (lookupK d k).isSome = (keysK d).contains k := by
  induction d with
  | nil => rfl
  | cons a rest ih =>
    obtain ⟨ak, av⟩ := a
    by_cases h : ak = k
    · simp [lookupK, h, keysK]
    · simp [lookupK, h, keysK, ih]
      intro hc
      exact absurd hc.symm h

/-- The fixed output schema: the 21 column names in source order. -/
def col21 : List String :=
  ["File Name", "Invoice Source", "Order Number", "Invoice Number",
   "Order Date", "Invoice Date", "Product Name", "HSN Code",
   "Quantity", "Unit Price", "Net Amount", "Tax Rate", "Tax Amount",
   "Total Amount", "Shipping Charges", "Grand Total", "Payment Mode",
   "Seller Name", "Seller GST", "Billing Address", "Shipping Address"]

theorem keysK_amazonInit (fn : String) : keysK (amazonInit fn) = col21 := rfl

theorem keysK_flipkartInit (fn : String) : keysK (flipkartInit fn) = col21 := rfl

theorem amazonSteps_keys (s : FStep) (hs : s ∈ amazonSteps) : s.key ∈ col21 := by
  fin_cases hs <;> decide

theorem flipkartSteps_keys (s : FStep) (hs : s ∈ flipkartSteps) : s.key ∈ col21 := by
  fin_cases hs <;> decide

/-- C1: for every input text and filename, each extractor returns a
record with exactly the fixed 21 field names, in schema order, every
field bound to a string: a key is present in the result exactly when it
is one of the 21 column names. -/
theorem extract_keys_complete (t fn : String) :
    keysK (extract_amazon_invoice t fn) = col21 ∧
    keysK (extract_flipkart_invoice t fn) = col21 ∧
    (∀ k : String, (lookupK (extract_amazon_invoice t fn) k).isSome = col21.contains k) ∧
    (∀ k : String, (lookupK (extract_flipkart_invoice t fn) k).isSome = col21.contains k) := by
  have ha : keysK (extract_amazon_invoice t fn) = col21 := by
    unfold extract_amazon_invoice
    rw [runStepsB_liftF]
    rw [keysK_runSteps t amazonSteps (amazonInit fn)
      (fun s hs => by rw [keysK_amazonInit]; exact amazonSteps_keys s hs)]
    exact keysK_amazonInit fn
  have hf : keysK (extract_flipkart_invoice t fn) = col21 := by
    unfold extract_flipkart_invoice
    rw [runStepsB_liftF]
    rw [keysK_runSteps t flipkartSteps (flipkartInit fn)
      (fun s hs => by rw [keysK_flipkartInit]; exact flipkartSteps_keys s hs)]
    exact keysK_flipkartInit fn
  refine ⟨ha, hf, ?_, ?_⟩
  · intro k; rw [lookupK_isSome, ha]
  · intro k; rw [lookupK_isSome, hf]

/-! Locality of the per-field steps: a fold step touches only its own
key, so each field's final value is decided by its own rule. -/

theorem lookupK_runStep_ne (t : String) (d : Dict) (s : FStep) (k : String) (h : s.key ≠ k) :
    lookupK (runStep t d s) k = lookupK d k := by
  unfold runStep
  cases s.rule t with
  | none => rfl
  | some v => exact lookupK_setK_ne d s.key k v h

theorem lookupK_runSteps_not_key (t : String) (steps : List FStep) (k : String) :
    ∀ d : Dict, (∀ s ∈ steps, s.key ≠ k) → lookupK (runSteps t steps d) k = lookupK d k := by
  induction steps with
  | nil => intro d _; rfl
  | cons a rest ih =>
    intro d h
    have h1 := ih (runStep t d a) (fun s hs => h s (List.mem_cons_of_mem a hs))
    rw [runSteps, List.foldl_cons]
    rw [show List.foldl (runStep t) (runStep t d a) rest = runSteps t rest (runStep t d a) from rfl]
    rw [h1, lookupK_runStep_ne t d a k (h a (List.mem_cons_self a rest))]

theorem lookupK_runSteps_self (t : String) (steps : List FStep) (s : FStep) :
    ∀ d : Dict, (steps.map FStep.key).Nodup → s ∈ steps →
    lookupK (runSteps t steps d) s.key =
      (match s.rule t with
       | some v => some v
       | none => lookupK d s.key) := by
  induction steps with
  | nil => intro d _ hs; simp at hs
  | cons a rest ih =>
    intro d hnd hs
    have hnd1 : ∀ s2 ∈ rest, s2.key ≠ a.key := by
      simp [List.nodup_cons] at hnd
      exact fun s2 hs2 => hnd.1 s2 hs2
    have hnd2 : (rest.map FStep.key).Nodup := by
      simp [List.nodup_cons] at hnd
      exact hnd.2
    rcases List.mem_cons.mp hs with rfl | hs2
    · have hrest : ∀ s2 ∈ rest, s2.key ≠ s.key := hnd1
      rw [runSteps, List.foldl_cons]
      rw [show List.foldl (runStep t) (runStep t d s) rest = runSteps t rest (runStep t d s) from rfl]
      rw [lookupK_runSteps_not_key t rest s.key (runStep t d s) hrest]
      unfold runStep
      cases s.rule t with
      | none => rfl
      | some v => exact lookupK_setK_self d s.key v
    · have hne : a.key ≠ s.key := (hnd1 s hs2).symm
      rw [runSteps, List.foldl_cons]
      rw [show List.foldl (runStep t) (runStep t d a) rest = runSteps t rest (runStep t d a) from rfl]
      rw [ih (runStep t d a) hnd2 hs2]
      cases s.rule t with
      | none => exact lookupK_runStep_ne t d a s.key hne
      | some v => rfl

theorem amazonSteps_nodup : (amazonSteps.map FStep.key).Nodup := by decide

theorem flipkartSteps_nodup : (flipkartSteps.map FStep.key).Nodup := by decide

/-! C9: the try/except boundary. -/

/-- Run a prefix of boundary steps, requiring each to succeed. -/
def runOk : List EStep → Dict → Option Dict
  | [], d => some d
  | s :: rest, d =>
    match s d with
    | Except.ok d2 => runOk rest d2
    | Except.error _ => none

/-- C9: the extractors never propagate an exception.  The two extractors
are exactly the boundary runner over their (total) field steps, and for
any sequence of boundary steps, if a step raises after a prefix ran
successfully, the runner returns the record as populated by that prefix:
fields set before the failure survive, all later fields keep whatever the
initial record gave them. -/
theorem extract_catches_exceptions :
    (∀ t fn : String,
      extract_amazon_invoice t fn = runSteps t amazonSteps (amazonInit fn) ∧
      extract_flipkart_invoice t fn = runSteps t flipkartSteps (flipkartInit fn)) ∧
    (∀ (pre post : List EStep) (s : EStep) (d d2 : Dict) (e : String),
      runOk pre d = some d2 → s d2 = Except.error e →
      runStepsB (pre ++ s :: post) d = d2) := by
  constructor
  · intro t fn
    exact ⟨runStepsB_liftF t amazonSteps (amazonInit fn),
           runStepsB_liftF t flipkartSteps (flipkartInit fn)⟩
  · intro pre
    induction pre with
    | nil =>
      intro post s d d2 e hok herr
      simp [runOk] at hok
      subst hok
      simp [runStepsB, herr]
    | cons p rest ih =>
      intro post s d d2 e hok herr
      rw [List.cons_append, runStepsB]
      cases hp : p d with
      | ok d3 =>
        rw [runOk, hp] at hok
        exact ih post s d3 d2 e hok herr
      | error e2 =>
        rw [runOk, hp] at hok
        exact absurd hok (by simp)

/-- Witness for C9: a concrete boundary run in which the second step
raises; the record keeps the first step's assignment and the defaults of
everything else. -/
theorem extract_catches_exceptions_witness :
    runStepsB [fun d => Except.ok (setK d "Order Number" "X"),
               fun _ => Except.error "boom",
               fun d => Except.ok (setK d "HSN Code" "Y")] (amazonInit "w.pdf")
      = setK (amazonInit "w.pdf") "Order Number" "X" :=
  extract_catches_exceptions.2
    [fun d => Except.ok (setK d "Order Number" "X")]
    [fun d => Except.ok (setK d "HSN Code" "Y")]
    (fun _ => Except.error "boom")
    (amazonInit "w.pdf") (setK (amazonInit "w.pdf") "Order Number" "X") "boom" rfl rfl

/-! C5: default values of unmatched fields. -/

/-- C5 counterexample: on empty text the Quantity rule matches nothing,
yet the returned Quantity is the default "1", which is neither "N/A"
nor "0.00". -/
theorem quantity_default_not_sentinel :
    stepAQty.rule "" = none ∧
    lookupK (extract_amazon_invoice "" "inv.pdf") "Quantity" = some "1" ∧
    ¬ (("1" : String) = "N/A" ∨ ("1" : String) = "0.00") :=
  ⟨rfl, rfl, by decide⟩

/-- C5 as amended: a field whose rule matches nothing keeps its declared
default; the defaults are "N/A" or "0.00" for every pattern-extracted
field except Quantity, whose default is "1". -/
theorem unmatched_fields_keep_defaults (t fn : String) (s : FStep) :
    (s ∈ amazonSteps → s.rule t = none →
      lookupK (extract_amazon_invoice t fn) s.key = lookupK (amazonInit fn) s.key ∧
      (lookupK (amazonInit fn) s.key = some "N/A" ∨
       lookupK (amazonInit fn) s.key = some "0.00" ∨
       (s.key = "Quantity" ∧ lookupK (amazonInit fn) s.key = some "1"))) ∧
    (s ∈ flipkartSteps → s.rule t = none →
      lookupK (extract_flipkart_invoice t fn) s.key = lookupK (flipkartInit fn) s.key ∧
      (lookupK (flipkartInit fn) s.key = some "N/A" ∨
       lookupK (flipkartInit fn) s.key = some "0.00" ∨
       (s.key = "Quantity" ∧ lookupK (flipkartInit fn) s.key = some "1"))) := by
  constructor
  · intro hs hr
    constructor
    · unfold extract_amazon_invoice
      rw [runStepsB_liftF]
      rw [lookupK_runSteps_self t amazonSteps s (amazonInit fn) amazonSteps_nodup hs, hr]
    · fin_cases hs <;>
        simp [amazonInit, lookupK, stepAOrder, stepAInvoiceNo, stepAOrderDate,
          stepAInvoiceDate, stepAProduct, stepAHSN, stepAUnit, stepAQty, stepANet,
          stepATaxRate, stepATaxAmt, stepATotalAmt, stepAShipCharges, stepAGrand,
          stepAPayment, stepASeller, stepAGST, stepABilling, stepAShipping]
  · intro hs hr
    constructor
    · unfold extract_flipkart_invoice
      rw [runStepsB_liftF]
      rw [lookupK_runSteps_self t flipkartSteps s (flipkartInit fn) flipkartSteps_nodup hs, hr]
    · fin_cases hs <;>
        simp [flipkartInit, lookupK, stepFOrder, stepFInvoiceNo, stepFOrderDate,
          stepFInvoiceDate, stepFProduct, stepFHSN, stepFQty, stepFGross, stepFTaxable,
          stepFTaxRate, stepFTaxAmt, stepFTotal, stepFShip, stepFSeller, stepFGST,
          stepFBilling, stepFShipping]

/-- Witness for C5: the amended statement instantiated at empty text and
the Quantity step. -/
theorem unmatched_fields_keep_defaults_witness :
    lookupK (extract_amazon_invoice "" "w.pdf") stepAQty.key = lookupK (amazonInit "w.pdf") stepAQty.key ∧
    (lookupK (amazonInit "w.pdf") stepAQty.key = some "N/A" ∨
     lookupK (amazonInit "w.pdf") stepAQty.key = some "0.00" ∨
     (stepAQty.key = "Quantity" ∧ lookupK (amazonInit "w.pdf") stepAQty.key = some "1")) :=
  (unmatched_fields_keep_defaults "" "w.pdf" stepAQty).1 (by simp [amazonSteps]) rfl

/-! C2: clean_currency. -/

/-- The shape demanded by the claim: digits, at most one period, digits
(the anchored regex of the claim text). -/
def matchesClaimC2 (s : String) : Bool :=
  match s.data.dropWhile Char.isDigit with
  | [] => true
  | '.' :: r => r.all Char.isDigit
  | _ => false

/-- C2 counterexample: an input with two periods survives cleaning with
both periods, so the result is neither "0.00" nor of the claimed
digits-period-digits shape. -/
theorem clean_currency_claim_false :
    clean_currency "a1.2.3" = "1.2.3" ∧
    matchesClaimC2 "1.2.3" = false ∧
    ("1.2.3" : String) ≠ "0.00" :=
  ⟨rfl, rfl, by decide⟩

/-- C2 as amended: for every input, clean_currency terminates and
returns either the literal "0.00" or a nonempty string made only of
digits and periods (possibly more than one period). -/
theorem clean_currency_digits_periods (s : String) :
    clean_currency s = "0.00" ∨
      (clean_currency s ≠ "" ∧ (clean_currency s).data.all (fun c => c.isDigit || c == '.')) := by
  unfold clean_currency
  by_cases h0 : s = ""
  · simp [h0]
  · rw [if_neg h0]
    by_cases h2 : (s.data.filter (fun c => c.isDigit || c = '.' || c = ',')).filter (fun c => c ≠ ',') = []
    · left
      simp only [h2, if_pos]
    · right
      rw [if_neg h2]
      constructor
      · intro hmk
        exact h2 (by simpa [String.ext_iff] using hmk)
      · rw [List.all_eq_true]
        intro c hc
        have hc2 := List.mem_filter.mp hc
        have hc3 := List.mem_filter.mp hc2.1
        have hdot : (c.isDigit || c = '.' || c = ',') = true := hc3.2
        have hcomma : (c ≠ ',') = true := by simpa using hc2.2
        simp only [Bool.or_eq_true, decide_eq_true_eq] at hdot ⊢
        rcases hdot with h | h
        · rcases h with h | h
          · exact Or.inl h
          · exact Or.inr (by simpa using h)
        · exact absurd h (by simpa using hcomma)

/-! C4: the vendor detector. -/

/-- Modelled from the spec's words: the five-way decision order of the
vendor detector, first hit wins. -/
def detectSpecC4 (text filename : String) : String :=
  if containsSub "amazon".data (toLowerL filename.data) then "amazon"
  else if containsSub "flipkart".data (toLowerL filename.data) then "flipkart"
  else if containsSub "amazon".data (toLowerL text.data) ||
          containsSub "ASSPL-Amazon".data text.data then "amazon"
  else if containsSub "flipkart".data (toLowerL text.data) then "flipkart"
  else "unknown"

/-- C4: the detector is a pure function equal to the spec's decision
list, it always answers one of the three vendor tags, and filename
evidence dominates content evidence on the claim's concrete example. -/
theorem detect_invoice_type_spec :
    (∀ t fn : String, detect_invoice_type t fn = detectSpecC4 t fn) ∧
    (∀ t fn : String, detect_invoice_type t fn = "amazon" ∨
      detect_invoice_type t fn = "flipkart" ∨ detect_invoice_type t fn = "unknown") ∧
    detect_invoice_type "an invoice mentioning flipkart only" "amazon_x.pdf" = "amazon" := by
  refine ⟨fun t fn => rfl, fun t fn => ?_, rfl⟩
  have h : detect_invoice_type t fn = detectSpecC4 t fn := rfl
  rw [h]
  unfold detectSpecC4
  split_ifs <;> simp

/-! C7: the concrete Amazon scenario. -/

def textC7 : String :=
  "Order Number: 402-1234567-1234567\nInvoice Date: 01.02.2023\n...₹199.00 1 ₹199.00...5% IGST ₹9.95"

/-- C7: on the scenario text with an Amazon filename, the Amazon rule
set produces the claimed order number, standardized invoice date, unit
price, tax rate and tax amount. -/
theorem amazon_scenario_record :
    lookupK (extract_amazon_invoice textC7 "amazon_invoice.pdf") "Order Number" = some "402-1234567-1234567" ∧
    lookupK (extract_amazon_invoice textC7 "amazon_invoice.pdf") "Invoice Date" = some "01/02/2023" ∧
    lookupK (extract_amazon_invoice textC7 "amazon_invoice.pdf") "Unit Price" = some "199.00" ∧
    lookupK (extract_amazon_invoice textC7 "amazon_invoice.pdf") "Tax Rate" = some "5%" ∧
    lookupK (extract_amazon_invoice textC7 "amazon_invoice.pdf") "Tax Amount" = some "9.95" :=
  ⟨rfl, rfl, rfl, rfl, rfl⟩

/-! C10: clean_text yields a single line. -/

theorem mem_collapseWs : ∀ (l : List Char), ∀ c ∈ collapseWs l, c = ' ' ∨ (c ∈ l ∧ pySpace c = false) := by
  intro l
  induction l using collapseWs.induct with
  | case1 => intro c hc; simp [collapseWs] at hc
  | case2 c0 h1 =>
    intro c hc
    rw [collapseWs, if_pos h1] at hc
    rcases List.mem_singleton.mp hc with rfl
    exact Or.inl rfl
  | case3 c0 h1 =>
    intro c hc
    rw [collapseWs, if_neg h1] at hc
    rcases List.mem_singleton.mp hc with rfl
    exact Or.inr ⟨List.mem_cons_self _ _, by simpa using h1⟩
  | case4 c0 d rest h1 h2 ih =>
    intro c hc
    rw [collapseWs, if_pos h1, if_pos h2] at hc
    rcases ih c hc with h | ⟨hm, hws⟩
    · exact Or.inl h
    · exact Or.inr ⟨List.mem_cons_of_mem c0 hm, hws⟩
  | case5 c0 d rest h1 h2 ih =>
    intro c hc
    rw [collapseWs, if_pos h1, if_neg h2] at hc
    rcases List.mem_cons.mp hc with rfl | hc2
    · exact Or.inl rfl
    · rcases ih c hc2 with h | ⟨hm, hws⟩
      · exact Or.inl h
      · exact Or.inr ⟨List.mem_cons_of_mem c0 hm, hws⟩
  | case6 c0 d rest h1 ih =>
    intro c hc
    rw [collapseWs, if_neg h1] at hc
    rcases List.mem_cons.mp hc with rfl | hc2
    · exact Or.inr ⟨List.mem_cons_self _ _, by simpa using h1⟩
    · rcases ih c hc2 with h | ⟨hm, hws⟩
      · exact Or.inl h
      · exact Or.inr ⟨List.mem_cons_of_mem c0 hm, hws⟩

theorem replaceL_not_head (p : Char) (ps rep : List Char) :
    ∀ l : List Char, p ∉ l → replaceL (p :: ps) rep l = l := by
  intro l
  induction l with
  | nil => intro _; simp [replaceL]
  | cons c rest ih =>
    intro h
    have hpc : p ≠ c := fun he => h (by rw [he]; exact List.mem_cons_self c rest)
    rw [replaceL, dif_neg]
    · rw [ih (fun hm => h (List.mem_cons_of_mem c hm))]
    · rintro ⟨-, hl⟩
      rw [leadsWith] at hl
      simp at hl
      exact hpc hl.1

theorem mem_pyStripL (l : List Char) (c : Char) (h : c ∈ pyStripL l) : c ∈ l := by
  unfold pyStripL at h
  rw [List.mem_reverse] at h
  have h2 := (List.dropWhile_sublist pySpace).subset h
  rw [List.mem_reverse] at h2
  exact (List.dropWhile_sublist pySpace).subset h2

theorem dropWhile_head_not (p : Char → Bool) :
    ∀ (l : List Char) (c : Char) (t : List Char), l.dropWhile p = c :: t → p c = false := by
  intro l
  induction l with
  | nil => intro c t h; simp at h
  | cons a rest ih =>
    intro c t h
    by_cases ha : p a
    · rw [List.dropWhile_cons, if_pos ha] at h
      exact ih c t h
    · rw [List.dropWhile_cons, if_neg ha] at h
      cases h
      simpa using ha

theorem dropWhile_dropWhile (p : Char → Bool) (l : List Char) :
    (l.dropWhile p).dropWhile p = l.dropWhile p := by
  cases h : l.dropWhile p with
  | nil => rfl
  | cons c t =>
    rw [List.dropWhile_cons, dropWhile_head_not p l c t h]
    simp

theorem pyStripL_idem (l : List Char) : pyStripL (pyStripL l) = pyStripL l := by
  have hrev : (pyStripL l).reverse = ((l.dropWhile pySpace).reverse).dropWhile pySpace := by
    unfold pyStripL
    rw [List.reverse_reverse]
  have hrevdrop : (pyStripL l).reverse.dropWhile pySpace = (pyStripL l).reverse := by
    rw [hrev, dropWhile_dropWhile]
  have hheaddrop : (pyStripL l).dropWhile pySpace = pyStripL l := by
    cases hy : pyStripL l with
    | nil => rfl
    | cons c t =>
      have hpre : pyStripL l <+: l.dropWhile pySpace := by
        have hsuf : (pyStripL l).reverse <:+ (l.dropWhile pySpace).reverse := by
          rw [hrev]
          exact List.dropWhile_suffix pySpace
        exact (List.reverse_suffix).mp hsuf
      obtain ⟨r, hr⟩ := hpre
      rw [hy] at hr
      have hc : pySpace c = false := dropWhile_head_not pySpace l c (t ++ r) (by rw [← hr]; simp)
      simp [List.dropWhile_cons, hc]
  show (((pyStripL l).dropWhile pySpace).reverse.dropWhile pySpace).reverse = pyStripL l
  rw [hheaddrop, hrevdrop, List.reverse_reverse]

theorem splitNl_no_newline (l : List Char) (h : '\n' ∉ l) : splitNl l = [l] := by
  induction l with
  | nil => rfl
  | cons c rest ih =>
    have hc : c ≠ '\n' := fun he => h (by rw [he]; exact List.mem_cons_self '\n' rest)
    rw [splitNl, if_neg hc, ih (fun hm => h (List.mem_cons_of_mem c hm))]

/-- C10: clean_text leaves no newline or carriage return (every
whitespace run, newlines included, became one space before the
replace calls ran), strips leading and trailing whitespace, and so
the newline split used by the product-name rule yields exactly the one
whole line. -/
theorem clean_text_single_line (s : String) :
    '\n' ∉ (clean_text s).data ∧ '\r' ∉ (clean_text s).data ∧
    pyStripL (clean_text s).data = (clean_text s).data ∧
    splitNl (clean_text s).data = [(clean_text s).data] := by
  by_cases h0 : s = ""
  · subst h0
    refine ⟨by simp [clean_text], by simp [clean_text], by simp [clean_text, pyStripL], by simp [clean_text, splitNl]⟩
  · have hn : '\n' ∉ collapseWs s.data := by
      intro hm
      rcases mem_collapseWs s.data '\n' hm with h | ⟨-, hws⟩
      · exact absurd h (by decide)
      · exact absurd hws (by decide)
    have hr : '\r' ∉ collapseWs s.data := by
      intro hm
      rcases mem_collapseWs s.data '\r' hm with h | ⟨-, hws⟩
      · exact absurd h (by decide)
      · exact absurd hws (by decide)
    have hct : (clean_text s).data = pyStripL (collapseWs s.data) := by
      unfold clean_text
      rw [if_neg h0]
      rw [replaceL_not_head '\r' ['\n'] ['\n'] (collapseWs s.data) hr]
      rw [replaceL_not_head '\r' [] ['\n'] (collapseWs s.data) hr]
    rw [hct]
    refine ⟨fun hm => hn (mem_pyStripL _ '\n' hm), fun hm => hr (mem_pyStripL _ '\r' hm),
      pyStripL_idem _, splitNl_no_newline _ (fun hm => hn (mem_pyStripL _ '\n' hm))⟩

/-! C3: standardize_date is idempotent. -/

theorem takeDigitsN_eq (n : Nat) :
    ∀ (l g r : List Char), takeDigitsN n l = some (g, r) →
      g.length = n ∧ (∀ c ∈ g, c.isDigit = true) ∧ l = g ++ r := by
  induction n with
  | zero =>
    intro l g r h
    rw [takeDigitsN] at h
    cases h
    exact ⟨rfl, by simp, rfl⟩
  | succ n ih =>
    intro l g r h
    cases l with
    | nil => exact absurd h (by rw [takeDigitsN]; simp)
    | cons c rest =>
      rw [takeDigitsN] at h
      by_cases hc : c.isDigit
      · rw [if_pos hc] at h
        cases heq : takeDigitsN n rest with
        | none => rw [heq] at h; exact absurd h (by simp)
        | some pr =>
          obtain ⟨g2, r2⟩ := pr
          rw [heq] at h
          cases h
          obtain ⟨hl, hd, he⟩ := ih rest g2 r heq
          refine ⟨by simp [hl], ?_, by simp [he]⟩
          intro x hx
          rcases List.mem_cons.mp hx with rfl | hx2
          · exact hc
          · exact hd x hx2
      · rw [if_neg hc] at h
        exact absurd h (by simp)

theorem matchDP_some (a : Nat) (sep : Char) (b c : Nat) (l g1 g2 g3 : List Char)
    (h : matchDP a sep b c l = some (g1, g2, g3)) :
    g1.length = a ∧ g2.length = b ∧ g3.length = c ∧
    (∀ x ∈ g1, x.isDigit = true) ∧ (∀ x ∈ g2, x.isDigit = true) ∧
    (∀ x ∈ g3, x.isDigit = true) ∧ sep ∈ l := by
  unfold matchDP at h
  cases h1 : takeDigitsN a l with
  | none => rw [h1] at h; exact absurd h (by simp)
  | some pr1 =>
    obtain ⟨ga, r1⟩ := pr1
    rw [h1] at h
    cases r1 with
    | nil => exact absurd h (by simp)
    | cons s1 r2 =>
      simp only [] at h
      by_cases hs1 : s1 = sep
      · rw [if_pos hs1] at h
        cases h2 : takeDigitsN b r2 with
        | none => rw [h2] at h; exact absurd h (by simp)
        | some pr2 =>
          obtain ⟨gb, r3⟩ := pr2
          rw [h2] at h
          cases r3 with
          | nil => exact absurd h (by simp)
          | cons s2 r4 =>
            simp only [] at h
            by_cases hs2 : s2 = sep
            · rw [if_pos hs2] at h
              cases h3 : takeDigitsN c r4 with
              | none => rw [h3] at h; exact absurd h (by simp)
              | some pr3 =>
                obtain ⟨gc, r5⟩ := pr3
                rw [h3] at h
                cases h
                obtain ⟨hl1, hd1, he1⟩ := takeDigitsN_eq a l g1 (s1 :: r2) h1
                obtain ⟨hl2, hd2, he2⟩ := takeDigitsN_eq b r2 g2 (s2 :: r4) h2
                obtain ⟨hl3, hd3, he3⟩ := takeDigitsN_eq c r4 g3 r5 h3
                refine ⟨hl1, hl2, hl3, hd1, hd2, hd3, ?_⟩
                rw [he1, ← hs1]
                exact List.mem_append_right g1 (List.mem_cons_self s1 r2)
            · rw [if_neg hs2] at h
              exact absurd h (by simp)
      · rw [if_neg hs1] at h
        exact absurd h (by simp)

theorem searchDP_some (a : Nat) (sep : Char) (b c : Nat) :
    ∀ (l g1 g2 g3 : List Char), searchDP a sep b c l = some (g1, g2, g3) →
      g1.length = a ∧ g2.length = b ∧ g3.length = c ∧
      (∀ x ∈ g1, x.isDigit = true) ∧ (∀ x ∈ g2, x.isDigit = true) ∧
      (∀ x ∈ g3, x.isDigit = true) ∧ sep ∈ l := by
  intro l
  induction l with
  | nil =>
    intro g1 g2 g3 h
    rw [searchDP] at h
    exact matchDP_some a sep b c [] g1 g2 g3 h
  | cons x rest ih =>
    intro g1 g2 g3 h
    rw [searchDP] at h
    cases hm : matchDP a sep b c (x :: rest) with
    | some r =>
      rw [hm] at h
      cases h
      exact matchDP_some a sep b c (x :: rest) g1 g2 g3 hm
    | none =>
      rw [hm] at h
      obtain ⟨p1, p2, p3, p4, p5, p6, p7⟩ := ih g1 g2 g3 h
      exact ⟨p1, p2, p3, p4, p5, p6, List.mem_cons_of_mem x p7⟩

theorem searchDP_none_of_not_mem (a : Nat) (sep : Char) (b c : Nat) (l : List Char)
    (h : sep ∉ l) : searchDP a sep b c l = none := by
  cases hs : searchDP a sep b c l with
  | none => rfl
  | some r =>
    obtain ⟨g1, g2, g3⟩ := r
    exact absurd (searchDP_some a sep b c l g1 g2 g3 hs).2.2.2.2.2.2 h

theorem not_dot_of_digit (c : Char) (h : c.isDigit = true) : ('.' : Char) ≠ c := by
  intro he
  rw [← he] at h
  exact absurd h (by decide)

theorem matchDP_render (a1 a2 b1 b2 c1 c2 c3 c4 : Char)
    (h1 : a1.isDigit = true) (h2 : a2.isDigit = true) (h3 : b1.isDigit = true)
    (h4 : b2.isDigit = true) (h5 : c1.isDigit = true) (h6 : c2.isDigit = true)
    (h7 : c3.isDigit = true) (h8 : c4.isDigit = true) :
    matchDP 2 '/' 2 4 [a1, a2, '/', b1, b2, '/', c1, c2, c3, c4] =
      some ([a1, a2], [b1, b2], [c1, c2, c3, c4]) := by
  simp [matchDP, takeDigitsN, h1, h2, h3, h4, h5, h6, h7, h8]

/-- The slash-pattern output of standardize_date is one of its own fixed
points: the dot pattern cannot match it (it has no dot), the slash
pattern matches it at position zero with the same groups, and the
formatter reproduces it. -/
theorem standardize_date_render_fixed (g1 g2 g3 : List Char)
    (hl1 : g1.length = 2) (hl2 : g2.length = 2) (hl3 : g3.length = 4)
    (hd1 : ∀ x ∈ g1, x.isDigit = true) (hd2 : ∀ x ∈ g2, x.isDigit = true)
    (hd3 : ∀ x ∈ g3, x.isDigit = true) :
    standardize_date (String.mk (g1 ++ '/' :: g2 ++ '/' :: g3)) =
      String.mk (g1 ++ '/' :: g2 ++ '/' :: g3) := by
  rcases g1 with _ | ⟨a1, _ | ⟨a2, _ | ⟨a3, t1⟩⟩⟩ <;> simp at hl1
  rcases g2 with _ | ⟨b1, _ | ⟨b2, _ | ⟨b3, t2⟩⟩⟩ <;> simp at hl2
  rcases g3 with _ | ⟨c1, _ | ⟨c2, _ | ⟨c3, _ | ⟨c4, _ | ⟨c5, t3⟩⟩⟩⟩⟩ <;> simp at hl3
  have ha1 := hd1 a1 (by simp)
  have ha2 := hd1 a2 (by simp)
  have hb1 := hd2 b1 (by simp)
  have hb2 := hd2 b2 (by simp)
  have hc1 := hd3 c1 (by simp)
  have hc2 := hd3 c2 (by simp)
  have hc3 := hd3 c3 (by simp)
  have hc4 := hd3 c4 (by simp)
  have hne1 : ¬ (String.mk ([a1, a2] ++ '/' :: [b1, b2] ++ '/' :: [c1, c2, c3, c4]) = "" ∨
      String.mk ([a1, a2] ++ '/' :: [b1, b2] ++ '/' :: [c1, c2, c3, c4]) = "N/A") := by
    rintro (he | he) <;> (rw [String.ext_iff] at he; simp at he)
  have hdot : '.' ∉ [a1, a2, '/', b1, b2, '/', c1, c2, c3, c4] := by
    intro hm
    simp only [List.mem_cons, List.not_mem_nil, or_false] at hm
    rcases hm with h | h | h | h | h | h | h | h | h | h
    · exact not_dot_of_digit a1 ha1 h
    · exact not_dot_of_digit a2 ha2 h
    · exact absurd h (by decide)
    · exact not_dot_of_digit b1 hb1 h
    · exact not_dot_of_digit b2 hb2 h
    · exact absurd h (by decide)
    · exact not_dot_of_digit c1 hc1 h
    · exact not_dot_of_digit c2 hc2 h
    · exact not_dot_of_digit c3 hc3 h
    · exact not_dot_of_digit c4 hc4 h
  rw [standardize_date, if_neg hne1]
  rw [show (String.mk ([a1, a2] ++ '/' :: [b1, b2] ++ '/' :: [c1, c2, c3, c4])).data =
      [a1, a2, '/', b1, b2, '/', c1, c2, c3, c4] from rfl]
  rw [searchDP_none_of_not_mem 2 '.' 2 4 _ hdot]
  rw [searchDP, matchDP_render a1 a2 b1 b2 c1 c2 c3 c4 ha1 ha2 hb1 hb2 hc1 hc2 hc3 hc4]
  rfl

/-- C3: standardize_date is idempotent on every input (so in particular
on the outputs of its four date patterns), and a string that is exactly
in DD/MM/YYYY form is returned unchanged. -/
theorem standardize_date_idem :
    (∀ d : String, standardize_date (standardize_date d) = standardize_date d) ∧
    standardize_date "01/02/2023" = "01/02/2023" := by
  constructor
  · intro d
    by_cases h0 : d = "" ∨ d = "N/A"
    · have hval : standardize_date d = "N/A" := by rw [standardize_date, if_pos h0]
      rw [hval]
      rfl
    · cases hdot : searchDP 2 '.' 2 4 d.data with
      | some r =>
        obtain ⟨g1, g2, g3⟩ := r
        have hval : standardize_date d = fmtPy g1 g2 g3 := by
          rw [standardize_date, if_neg h0, hdot]
        obtain ⟨hl1, hl2, hl3, hd1, hd2, hd3, -⟩ := searchDP_some 2 '.' 2 4 d.data g1 g2 g3 hdot
        have hfmt : fmtPy g1 g2 g3 = String.mk (g1 ++ '/' :: g2 ++ '/' :: g3) := by
          rw [fmtPy, if_neg (by omega)]
        rw [hval, hfmt]
        rw [hfmt] at hval
        exact standardize_date_render_fixed g1 g2 g3 hl1 hl2 hl3 hd1 hd2 hd3
      | none =>
        cases hslash : searchDP 2 '/' 2 4 d.data with
        | some r =>
          obtain ⟨g1, g2, g3⟩ := r
          have hval : standardize_date d = fmtPy g1 g2 g3 := by
            rw [standardize_date, if_neg h0, hdot, hslash]
          obtain ⟨hl1, hl2, hl3, hd1, hd2, hd3, -⟩ := searchDP_some 2 '/' 2 4 d.data g1 g2 g3 hslash
          have hfmt : fmtPy g1 g2 g3 = String.mk (g1 ++ '/' :: g2 ++ '/' :: g3) := by
            rw [fmtPy, if_neg (by omega)]
          rw [hval, hfmt]
          exact standardize_date_render_fixed g1 g2 g3 hl1 hl2 hl3 hd1 hd2 hd3
        | none =>
          cases hdash : searchDP 2 '-' 2 4 d.data with
          | some r =>
            obtain ⟨g1, g2, g3⟩ := r
            have hval : standardize_date d = fmtPy g1 g2 g3 := by
              rw [standardize_date, if_neg h0, hdot, hslash, hdash]
            obtain ⟨hl1, hl2, hl3, hd1, hd2, hd3, -⟩ := searchDP_some 2 '-' 2 4 d.data g1 g2 g3 hdash
            have hfmt : fmtPy g1 g2 g3 = String.mk (g1 ++ '/' :: g2 ++ '/' :: g3) := by
              rw [fmtPy, if_neg (by omega)]
            rw [hval, hfmt]
            exact standardize_date_render_fixed g1 g2 g3 hl1 hl2 hl3 hd1 hd2 hd3
          | none =>
            cases hiso : searchDP 4 '-' 2 2 d.data with
            | some r =>
              obtain ⟨g1, g2, g3⟩ := r
              have hval : standardize_date d = fmtPy g1 g2 g3 := by
                rw [standardize_date, if_neg h0, hdot, hslash, hdash, hiso]
              obtain ⟨hl1, hl2, hl3, hd1, hd2, hd3, -⟩ := searchDP_some 4 '-' 2 2 d.data g1 g2 g3 hiso
              have hfmt : fmtPy g1 g2 g3 = String.mk (g3 ++ '/' :: g2 ++ '/' :: g1) := by
                rw [fmtPy, if_pos hl1]
              rw [hval, hfmt]
              exact standardize_date_render_fixed g3 g2 g1 hl3 hl2 hl1 hd3 hd2 hd1
            | none =>
              have hval : standardize_date d = d := by
                rw [standardize_date, if_neg h0, hdot, hslash, hdash, hiso]
              rw [hval, hval]
  · rfl

/-! C6: the Amazon product-name continuation scan. -/

/-- Modelled from the claim's words for C6: a scan in which a line
holding an aggregate keyword is disqualifying and stops the appending,
exactly like a section-starting line. -/
def collectPartsClaimC6 : Nat → List (List Char) → List (List Char)
  | 0, _ => []
  | _ + 1, [] => []
  | n + 1, ln :: rest =>
    let nl := pyStripL ln
    if nl ≠ [] && !sectionStart nl && !hasAggregate nl then nl :: collectPartsClaimC6 n rest
    else []

/-- The claimed product-name rule built on the claimed scan. -/
def amazonProductClaimC6 (t : String) : Option String :=
  match findItemLine (splitNl t.data) with
  | none => none
  | some (ln, rest) =>
    some (String.mk ((pyStripL (stripArtifact (joinSpace (stripOne ln :: collectPartsClaimC6 4 rest)))).take 200))

/-- C6 counterexample: a line with an aggregate keyword is skipped but
does not stop the scan, so the line after it is still appended; the
claim's stop-at-first-disqualifying-line scan would not append it. -/
theorem product_scan_skips_aggregate :
    lookupK (extract_amazon_invoice "1 Widget\nsubtotal\nExtra" "inv.pdf") "Product Name" = some "Widget Extra" ∧
    amazonProductClaimC6 "1 Widget\nsubtotal\nExtra" = some "Widget" ∧
    ("Widget Extra" : String) ≠ "Widget" :=
  ⟨rfl, rfl, by decide⟩

/-- Modelled from the amended claim: scan exactly the at-most-four
following lines; stop at the first line that is empty after trimming or
starts a new table section; skip (without stopping) any line holding an
aggregate keyword; append every other line. -/
def scanSpec : List (List Char) → List (List Char)
  | [] => []
  | ln :: rest =>
    if pyStripL ln = [] ∨ sectionStart (pyStripL ln) = true then []
    else if hasAggregate (pyStripL ln) = true then scanSpec rest
    else pyStripL ln :: scanSpec rest

/-- The amended product-name rule: the scan above over the four lines
after the item line, then the artifact strip, trim, and truncation. -/
def amazonProductSpec (t : String) : Option String :=
  match findItemLine (splitNl t.data) with
  | none => none
  | some (ln, rest) =>
    some (String.mk ((pyStripL (stripArtifact (joinSpace (stripOne ln :: scanSpec (rest.take 4))))).take 200))

theorem collectParts_eq_scanSpec : ∀ (n : Nat) (ls : List (List Char)),
    collectParts n ls = scanSpec (ls.take n) := by
  intro n
  induction n with
  | zero => intro ls; rfl
  | succ n ih =>
    intro ls
    cases ls with
    | nil => rfl
    | cons ln rest =>
      rw [List.take_succ_cons, collectParts, scanSpec]
      by_cases h1 : pyStripL ln = []
      · simp [h1]
      · by_cases h2 : sectionStart (pyStripL ln) = true
        · simp [h1, h2]
        · by_cases h3 : hasAggregate (pyStripL ln) = true
          · simp [h1, h2, h3, ih]
          · simp [h1, h2, h3, ih]

theorem amazonProductRule_eq_spec (t : String) : amazonProductRule t = amazonProductSpec t := by
  unfold amazonProductRule amazonProductSpec
  cases hfi : findItemLine (splitNl t.data) with
  | none => rfl
  | some pr =>
    obtain ⟨ln, rest⟩ := pr
    show some (String.mk ((pyStripL (stripArtifact (joinSpace (stripOne ln :: collectParts 4 rest)))).take 200)) =
      some (String.mk ((pyStripL (stripArtifact (joinSpace (stripOne ln :: scanSpec (rest.take 4))))).take 200))
    rw [collectParts_eq_scanSpec]

/-- C6 as amended: the product rule of the extractor equals the spec
scan that looks at most 4 lines ahead, stops at an empty or
section-starting line, skips aggregate-keyword lines without stopping,
strips the trailing price-qty-price artifact and truncates to 200
characters; the resulting field never exceeds 200 characters. -/
theorem amazon_product_rule_amended (t fn : String) :
    amazonProductRule t = amazonProductSpec t ∧
    lookupK (extract_amazon_invoice t fn) "Product Name" =
      some ((amazonProductSpec t).getD "N/A") ∧
    ((amazonProductSpec t).getD "N/A").length ≤ 200 := by
  refine ⟨amazonProductRule_eq_spec t, ?_, ?_⟩
  · unfold extract_amazon_invoice
    rw [runStepsB_liftF]
    have h := lookupK_runSteps_self t amazonSteps stepAProduct (amazonInit fn)
      amazonSteps_nodup (by simp [amazonSteps])
    rw [show stepAProduct.key = "Product Name" from rfl] at h
    rw [show stepAProduct.rule = amazonProductRule from rfl] at h
    rw [h, amazonProductRule_eq_spec t]
    cases amazonProductSpec t with
    | none => rfl
    | some v => rfl
  · cases hs : amazonProductSpec t with
    | none => decide
    | some v =>
      unfold amazonProductSpec at hs
      cases hfi : findItemLine (splitNl t.data) with
      | none => rw [hfi] at hs; exact absurd hs (by simp)
      | some pr =>
        obtain ⟨ln, rest⟩ := pr
        rw [hfi] at hs
        simp only [Option.some.injEq] at hs
        subst hs
        simp only [Option.getD_some]
        show (String.mk _).data.length ≤ 200
        simp

/-! C8: the address rules. -/

/-- Modelled from the claim's words for C8: the merged stop-marker set
of both extractors plus end-of-text. -/
def stopClaimC8 (l : List Char) : Bool :=
  (twoWordCI "Shipping".data "Address".data l).isSome ||
    (twoWordCI "Ship".data "To".data l).isSome ||
    leadsWithCI "State/UT".data l ||
    (twoWordCI "Place".data "of".data l).isSome ||
    (twoWordCI "Order".data "ID".data l).isSome || atEnd l

/-- Modelled from the claim's words: the lazy span from the start to the
nearest stop-marker position, with no restriction on its characters. -/
def claimCapture (stop : List Char → Bool) : List Char → Option (List Char)
  | [] => none
  | c :: rest =>
    if stop rest then some [c]
    else
      match claimCapture stop rest with
      | some g => some (c :: g)
      | none => none

/-- Modelled from the claim's words: one attempt of the claimed Billing
Address capture at a position ("Billing Address" or "Bill To" marker,
separator run skipped, lazy span to the nearest merged stop marker). -/
def claimAddrAt (l : List Char) : Option (List Char) :=
  match twoWordCI "Billing".data "Address".data l with
  | some r0 => claimCapture stopClaimC8 (r0.dropWhile colonSep)
  | none =>
    match twoWordCI "Bill".data "To".data l with
    | some r0 => claimCapture stopClaimC8 (r0.dropWhile colonSep)
    | none => none

/-- Modelled from the claim's words: the claimed Billing Address value,
first matching position wins. -/
def claimBillingC8 : List Char → Option (List Char)
  | [] => claimAddrAt []
  | c :: t =>
    match claimAddrAt (c :: t) with
    | some g => some g
    | none => claimBillingC8 t

def textC8 : String := "Billing Address: Jo: hn State/UT"

/-- C8 counterexample: the capture class of the source pattern excludes
colons, so a colon between the start marker and the nearest stop marker
makes the whole pattern fail and the field keeps its default, while the
claimed lazy span up to the nearest stop marker would be captured. -/
theorem billing_colon_barrier :
    lookupK (extract_amazon_invoice textC8 "inv.pdf") "Billing Address" = some "N/A" ∧
    (claimBillingC8 textC8.data).map addrPost = some "Jo: hn" ∧
    ("N/A" : String) ≠ "Jo: hn" :=
  ⟨rfl, rfl, by decide⟩

/-- Soundness and nearest-stop minimality of the lazy capture group of
the address patterns: a captured span is nonempty, colon-free, and ends
at the first position after its start where the rule's stop lookahead
holds. -/
theorem lazyCapture_sound (stop : List Char → Bool) :
    ∀ (l g : List Char), lazyCapture stop l = some g →
      g ≠ [] ∧ (∀ c ∈ g, c ≠ ':') ∧
      ∃ rest, l = g ++ rest ∧ stop rest = true ∧
        (∀ g2 r2, l = g2 ++ r2 → g2 ≠ [] → g2.length < g.length → stop r2 = false) := by
  intro l
  induction l with
  | nil => intro g h; exact absurd h (by simp [lazyCapture])
  | cons c rest ih =>
    intro g h
    rw [lazyCapture] at h
    by_cases hc : c = ':'
    · rw [if_pos hc] at h
      exact absurd h (by simp)
    · rw [if_neg hc] at h
      by_cases hstop : stop rest = true
      · rw [if_pos hstop] at h
        cases h
        refine ⟨by simp, ?_, rest, rfl, hstop, ?_⟩
        · intro x hx
          rcases List.mem_singleton.mp hx with rfl
          exact hc
        · intro g2 r2 _ hne hlt
          have hp : 0 < g2.length := List.length_pos.mpr hne
          have h1 : g2.length < 1 := by simpa using hlt
          omega
      · rw [if_neg hstop] at h
        cases hlc : lazyCapture stop rest with
        | none => rw [hlc] at h; exact absurd h (by simp)
        | some g3 =>
          rw [hlc] at h
          cases h
          obtain ⟨hne3, hmem3, r3, he3, hstop3, hmin3⟩ := ih g3 hlc
          refine ⟨by simp, ?_, r3, by rw [List.cons_append, ← he3], hstop3, ?_⟩
          · intro x hx
            rcases List.mem_cons.mp hx with rfl | hx2
            · exact hc
            · exact hmem3 x hx2
          · intro g2 r2 he hne hlt
            cases g2 with
            | nil => exact absurd rfl hne
            | cons d g2t =>
              rw [List.cons_append] at he
              injection he with he1 he2
              cases g2t with
              | nil =>
                have hb : stop rest = false := by
                  cases hv : stop rest with
                  | false => rfl
                  | true => exact absurd hv hstop
                simp only [List.nil_append] at he2
                rw [← he2]
                exact hb
              | cons e g2tt =>
                apply hmin3 (e :: g2tt) r2 he2 (by simp)
                simp only [List.length_cons] at hlt ⊢
                omega

/-- C8 as amended: each address field is the map of its own compiled
pattern over the text (defaulting to "N/A"); a successful capture is a
nonempty colon-free span ending exactly at the nearest position where
that rule's own stop lookahead holds; the published value is always at
most 150 characters. -/
theorem address_rules_amended :
    (∀ t fn : String,
      lookupK (extract_amazon_invoice t fn) "Billing Address" = some ((amazonBillingRule t).getD "N/A") ∧
      lookupK (extract_amazon_invoice t fn) "Shipping Address" = some ((amazonShippingRule t).getD "N/A") ∧
      lookupK (extract_flipkart_invoice t fn) "Billing Address" = some ((flipkartBillingRule t).getD "N/A") ∧
      lookupK (extract_flipkart_invoice t fn) "Shipping Address" = some ((flipkartShippingRule t).getD "N/A")) ∧
    (∀ (stop : List Char → Bool) (l g : List Char), lazyCapture stop l = some g →
      g ≠ [] ∧ (∀ c ∈ g, c ≠ ':') ∧
      ∃ rest, l = g ++ rest ∧ stop rest = true ∧
        (∀ g2 r2, l = g2 ++ r2 → g2 ≠ [] → g2.length < g.length → stop r2 = false)) ∧
    (∀ t : String,
      ((amazonBillingRule t).getD "N/A").length ≤ 150 ∧
      ((amazonShippingRule t).getD "N/A").length ≤ 150 ∧
      ((flipkartBillingRule t).getD "N/A").length ≤ 150 ∧
      ((flipkartShippingRule t).getD "N/A").length ≤ 150) := by
  refine ⟨?_, lazyCapture_sound, ?_⟩
  · intro t fn
    have ha := lookupK_runSteps_self t amazonSteps stepABilling (amazonInit fn)
      amazonSteps_nodup (by simp [amazonSteps])
    have hb := lookupK_runSteps_self t amazonSteps stepAShipping (amazonInit fn)
      amazonSteps_nodup (by simp [amazonSteps])
    have hc := lookupK_runSteps_self t flipkartSteps stepFBilling (flipkartInit fn)
      flipkartSteps_nodup (by simp [flipkartSteps])
    have hd := lookupK_runSteps_self t flipkartSteps stepFShipping (flipkartInit fn)
      flipkartSteps_nodup (by simp [flipkartSteps])
    rw [show stepABilling.key = "Billing Address" from rfl,
        show stepABilling.rule = amazonBillingRule from rfl] at ha
    rw [show stepAShipping.key = "Shipping Address" from rfl,
        show stepAShipping.rule = amazonShippingRule from rfl] at hb
    rw [show stepFBilling.key = "Billing Address" from rfl,
        show stepFBilling.rule = flipkartBillingRule from rfl] at hc
    rw [show stepFShipping.key = "Shipping Address" from rfl,
        show stepFShipping.rule = flipkartShippingRule from rfl] at hd
    unfold extract_amazon_invoice extract_flipkart_invoice
    rw [runStepsB_liftF, runStepsB_liftF, ha, hb, hc, hd]
    refine ⟨?_, ?_, ?_, ?_⟩ <;>
      (first
        | (cases amazonBillingRule t with | none => rfl | some v => rfl)
        | (cases amazonShippingRule t with | none => rfl | some v => rfl)
        | (cases flipkartBillingRule t with | none => rfl | some v => rfl)
        | (cases flipkartShippingRule t with | none => rfl | some v => rfl))
  · intro t
    have hlen : ∀ (o : Option (List Char)), ((o.map addrPost).getD "N/A").length ≤ 150 := by
      intro o
      cases o with
      | none => decide
      | some g =>
        show (String.mk ((collapseWs (pyStripL g)).take 150)).data.length ≤ 150
        simp
    exact ⟨hlen _, hlen _, hlen _, hlen _⟩

/-- Witness for C8: the lazy-capture soundness applied at a concrete
capture. -/
theorem address_rules_amended_witness :
    "ab ".data ≠ [] ∧ (∀ c ∈ "ab ".data, c ≠ ':') ∧
      ∃ rest, "ab State/UT".data = "ab ".data ++ rest ∧ stopAmzBilling rest = true ∧
        (∀ g2 r2, "ab State/UT".data = g2 ++ r2 → g2 ≠ [] → g2.length < "ab ".data.length →
          stopAmzBilling r2 = false) :=
  address_rules_amended.2.1 stopAmzBilling "ab State/UT".data "ab ".data rfl

end FilesExtract
